import Mathlib

/-!
Shallow embedding of `src/opennet/scripts/tui.py` (WireStack).

Python strings are embedded as Lean `String` (a wrapper around `List Char`);
character-level helpers operate on `List Char`.  Process execution is made
explicit: every function of the source that calls `subprocess.run` is
parameterised by the behaviour of the outside world, a function
`proc : List String → String × String × Int` giving raw stdout, raw stderr
and the exit code of each invoked argument vector.  Functions that invoke
processes additionally return the ordered list of argument vectors they
invoked, so that invocation counts are part of the model.
-/

namespace Tui

/-- ASCII whitespace stripped by Python's `str.strip()`. -/
def pyIsSpace (c : Char) : Bool :=
  c = ' ' || c = '\t' || c = '\n' || c = '\r' || c = '\x0b' || c = '\x0c'

/-- Python `str.strip()` on a character list. -/
def pyStrip (s : List Char) : List Char :=
  ((s.dropWhile pyIsSpace).reverse.dropWhile pyIsSpace).reverse

/-- Python `str.lower()` on a character list (ASCII model). -/
def pyLower (s : List Char) : List Char :=
  s.map Char.toLower

/-- Python `str.strip()` lifted to `String`. -/
def pyStripStr (s : String) : String :=
  String.mk (pyStrip s.data)

/-- Python `str.lower()` lifted to `String`. -/
def pyLowerStr (s : String) : String :=
  String.mk (pyLower s.data)

/-- Characters `shlex.quote` leaves bare: ASCII word characters and the
punctuation at, percent, plus, equals, colon, comma, dot, slash, dash. -/
def isSafeChar (c : Char) : Bool :=
  c.isAlpha || c.isDigit || c = '_' || c = '@' || c = '%' || c = '+' || c = '=' ||
    c = ':' || c = ',' || c = '.' || c = '/' || c = '-'

/-- The single-quote escaping used by `shlex.quote`:
each `'` becomes the five characters of the sequence quote, double quote,
quote, double quote, quote; every other character is kept. -/
def quoteEscChar (c : Char) : List Char :=
  if c = '\'' then ['\'', '"', '\'', '"', '\''] else [c]

/-- `shlex.quote` on a character list: an empty string becomes a pair of
single quotes, an all-safe string is returned bare, and anything else is
wrapped in single quotes with embedded quotes escaped. -/
def quoteChars (s : List Char) : List Char :=
  if s = [] then ['\'', '\'']
  else if s.all isSafeChar then s
  else '\'' :: (s.flatMap quoteEscChar ++ ['\''])

/-- Python `sep.join(parts)`. -/
def pyJoin (sep : List Char) : List (List Char) → List Char
  | [] => []
  | [x] => x
  | x :: y :: rest => x ++ sep ++ pyJoin sep (y :: rest)

/-- The display command text built by `run`:
`" ".join(shlex.quote(str(x)) for x in cmd)`. -/
def commandText (cmd : List String) : String :=
  String.mk (pyJoin [' '] (cmd.map (fun s => quoteChars s.data)))

/-- The `CommandResult` dataclass. -/
structure CommandResult where
  command : String
  stdout : String
  stderr : String
  returncode : Int
  deriving DecidableEq, Repr

/-- `run(cmd)`: invoke the process and package its stripped output together
with the shell-quoted command text. -/
def run (proc : List String → String × String × Int) (cmd : List String) :
    CommandResult :=
  ⟨commandText cmd, pyStripStr (proc cmd).1, pyStripStr (proc cmd).2.1, (proc cmd).2.2⟩

/-- A model of `pathlib.Path` values as free terms: a path built from a raw
string, a parent step, or a `/` join. -/
inductive PyPath where
  | ofString (s : String)
  | parent (p : PyPath)
  | join (p : PyPath) (seg : String)
  deriving DecidableEq, Repr

/-- `DEFAULT_BINARY = Path(__file__).resolve().parent.parent / "opennet"`,
as a function of the resolved script path. -/
def DEFAULT_BINARY (tuiResolved : PyPath) : PyPath :=
  PyPath.join (PyPath.parent (PyPath.parent tuiResolved)) "opennet"

/-- `find_binary()`: the `OPENNET_BIN` override (truthy, i.e. non-empty)
wins; otherwise the fixed default.  The environment is an explicit input. -/
def find_binary (env : Option String) (tuiResolved : PyPath) : PyPath :=
  match env with
  | some p => if p ≠ "" then PyPath.ofString p else DEFAULT_BINARY tuiResolved
  | none => DEFAULT_BINARY tuiResolved

/-- `prompt(msg)`: read a line and strip it; the line read is the input. -/
def prompt (input : List Char) : List Char :=
  pyStrip input

/-- `ask_yes_no(msg)`: strip, lowercase, and test for a leading `y`. -/
def ask_yes_no (input : List Char) : Bool :=
  List.isPrefixOf ['y'] (pyLower (prompt input))

/-- `print_result(result)`: the sequence of lines printed.  The first print
emits a blank line then the `$ `-prefixed command; stdout is printed only if
non-empty; stderr, only if non-empty, with a `[stderr]` tag; then a blank
line. -/
def print_result (r : CommandResult) : List String :=
  ["\n$ " ++ r.command]
    ++ (if r.stdout ≠ "" then [r.stdout] else [])
    ++ (if r.stderr ≠ "" then ["[stderr] " ++ r.stderr] else [])
    ++ [""]

/-- `reload_server`: run `down`, and only on exit code 0 run `up`.  Returns
the result together with the argument vectors invoked, in order. -/
def reload_server (proc : List String → String × String × Int)
    (binary server : String) : CommandResult × List (List String) :=
  let d := run proc [binary, "down", server]
  if d.returncode ≠ 0 then (d, [[binary, "down", server]])
  else (run proc [binary, "up", server],
    [[binary, "down", server], [binary, "up", server]])

/-- The fixed ordered candidate probe list of `tor_service`. -/
def serviceNames : List String :=
  ["tor", "tor.service", "tor@default", "tor@default.service"]

/-- The fixed hint appended to stderr when every candidate fails. -/
def torHint : String := " (Tor may not be installed or systemctl may require sudo)"

/-- The probe loop of `tor_service`: try each candidate in order, return the
first zero-exit result; when the list is exhausted, synthesize a result from
the last attempt (exit code 1 and empty output if none ran).  The second
component is the list of argument vectors invoked, in order. -/
def torLoop (proc : List String → String × String × Int) (action : String) :
    List String → Option CommandResult → CommandResult × List (List String)
  | [], last =>
    (⟨"", (match last with | some r => r.stdout | none => ""),
      (match last with | some r => r.stderr | none => "") ++ torHint,
      (match last with | some r => r.returncode | none => 1)⟩, [])
  | n :: rest, _ =>
    let result := run proc ["systemctl", action, n]
    if result.returncode = 0 then (result, [["systemctl", action, n]])
    else
      let t := torLoop proc action rest (some result)
      (t.1, ["systemctl", action, n] :: t.2)

/-- `tor_service(action)`: reject unrecognized actions without invoking
anything, otherwise probe the fixed candidate list. -/
def tor_service (proc : List String → String × String × Int) (action : String) :
    CommandResult × List (List String) :=
  if action = "start" ∨ action = "stop" ∨ action = "reload" ∨ action = "status" then
    torLoop proc action serviceNames none
  else (⟨"", "", "Unsupported action " ++ action, 1⟩, [])

/-- Whitespace recognized by `shlex` (`shlex.whitespace`). -/
def shWS (c : Char) : Bool :=
  c = ' ' || c = '\t' || c = '\r' || c = '\n'

/-- Lexer states of POSIX-mode `shlex` with `whitespace_split=True` and no
comment characters: between tokens, inside a bare word, inside single or
double quotes, or after a backslash seen outside quotes (`escO`) or inside
double quotes (`escD`). -/
inductive SpState where
  | ws | word | squote | dquote | escO | escD
  deriving DecidableEq, Repr

/-- One pass of `shlex.split` in POSIX mode: `q` records whether the current
token saw a quote (an empty quoted token is still emitted), `tok` is the
current token reversed, `acc` the emitted tokens reversed.  Returns `none`
exactly when Python raises (unbalanced quote or trailing escape). -/
def splitAux : SpState → Bool → List Char → List (List Char) → List Char →
    Option (List (List Char))
  | .ws, _, _, acc, [] => some acc.reverse
  | .word, q, tok, acc, [] =>
    if tok ≠ [] ∨ q = true then some (tok.reverse :: acc).reverse else some acc.reverse
  | .squote, _, _, _, [] => none
  | .dquote, _, _, _, [] => none
  | .escO, _, _, _, [] => none
  | .escD, _, _, _, [] => none
  | .ws, q, tok, acc, c :: rest =>
    if shWS c then splitAux .ws q tok acc rest
    else if c = '\\' then splitAux .escO q tok acc rest
    else if c = '\'' then splitAux .squote q tok acc rest
    else if c = '"' then splitAux .dquote q tok acc rest
    else splitAux .word q (c :: tok) acc rest
  | .word, q, tok, acc, c :: rest =>
    if shWS c then
      if tok ≠ [] ∨ q = true then splitAux .ws false [] (tok.reverse :: acc) rest
      else splitAux .ws false [] acc rest
    else if c = '\'' then splitAux .squote q tok acc rest
    else if c = '"' then splitAux .dquote q tok acc rest
    else if c = '\\' then splitAux .escO q tok acc rest
    else splitAux .word q (c :: tok) acc rest
  | .squote, _, tok, acc, c :: rest =>
    if c = '\'' then splitAux .word true tok acc rest
    else splitAux .squote true (c :: tok) acc rest
  | .dquote, _, tok, acc, c :: rest =>
    if c = '"' then splitAux .word true tok acc rest
    else if c = '\\' then splitAux .escD true tok acc rest
    else splitAux .dquote true (c :: tok) acc rest
  | .escO, q, tok, acc, c :: rest => splitAux .word q (c :: tok) acc rest
  | .escD, q, tok, acc, c :: rest =>
    if c = '\\' ∨ c = '"' then splitAux .dquote q (c :: tok) acc rest
    else splitAux .dquote q (c :: '\\' :: tok) acc rest

/-- `shlex.split` on a character list. -/
def shlexSplit (s : List Char) : Option (List (List Char)) :=
  splitAux .ws false [] [] s

/-- `shlex.split` on a `String`. -/
def shlexSplitStr (s : String) : Option (List String) :=
  (shlexSplit s.data).map (fun l => l.map String.mk)

/-- Outcome of one iteration of a menu loop on a given input line. -/
inductive MenuStep where
  | back | quit | toHost | toDevice | toAdvanced
  | runAction (label : String)
  | invalid
  deriving DecidableEq, Repr

/-- The ordered action registry of `host_menu`: key, label, and whether the
entry is executable (`False` marks the structural `5`/`b` entries). -/
def host_actions : List (String × String × Bool) :=
  [("1", "Start server (up)", true), ("2", "Stop server (down)", true),
   ("3", "Reload server (down/up)", true), ("4", "Export client config", true),
   ("5", "Advanced options", false), ("b", "Back", false)]

/-- The ordered action registry of `device_menu`. -/
def device_actions : List (String × String × Bool) :=
  [("1", "Connect as client", true), ("2", "Disconnect client", true),
   ("3", "Start Tor (ninja mode)", true), ("4", "Stop Tor", true),
   ("5", "Reload Tor", true), ("6", "Tor status", true), ("b", "Back", false)]

/-- The ordered action registry of `advanced_menu`. -/
def advanced_actions : List (String × String × Bool) :=
  [("1", "List servers", true), ("2", "Show server details", true),
   ("3", "Add server", true), ("4", "Delete server", true),
   ("5", "List clients for server", true), ("6", "Add client", true),
   ("7", "Generate key pair", true), ("b", "Back", false)]

/-- `dict.get` on a registry modelled as an ordered association list. -/
def lookupAction : List (String × String × Bool) → String → Option (String × Bool)
  | [], _ => none
  | (key, label, ex) :: rest, k =>
    if key = k then some (label, ex) else lookupAction rest k

/-- One iteration of the root `menu` loop: the stripped, lowercased choice is
compared against `1`, `2`, `q`; anything else prints the invalid-choice
notice and loops back to the same menu. -/
def root_step (raw : String) : MenuStep :=
  let choice := pyLowerStr (pyStripStr raw)
  if choice = "1" then .toHost
  else if choice = "2" then .toDevice
  else if choice = "q" then .quit
  else .invalid

/-- One iteration of `host_menu`: a lowercased `b` returns, an exact `5`
enters the advanced menu, a bound key runs its action, and an unmatched key
prints the invalid-choice notice and loops back to the same menu. -/
def host_step (raw : String) : MenuStep :=
  let choice := pyStripStr raw
  if pyLowerStr choice = "b" then .back
  else if choice = "5" then .toAdvanced
  else
    match lookupAction host_actions choice with
    | none => .invalid
    | some (_, false) => .back
    | some (label, true) => .runAction label

/-- One iteration of `device_menu`. -/
def device_step (raw : String) : MenuStep :=
  let choice := pyStripStr raw
  if pyLowerStr choice = "b" then .back
  else
    match lookupAction device_actions choice with
    | none => .invalid
    | some (_, false) => .back
    | some (label, true) => .runAction label

/-- One iteration of `advanced_menu`. -/
def advanced_step (raw : String) : MenuStep :=
  let choice := pyStripStr raw
  if pyLowerStr choice = "b" then .back
  else
    match lookupAction advanced_actions choice with
    | none => .invalid
    | some (_, false) => .back
    | some (label, true) => .runAction label

/-- A process behaviour that fails every invocation, a concrete test double. -/
def procAllFail : List String → String × String × Int :=
  fun _ => ("", "probe failed", 1)

/-- A process behaviour where `down` of server `s0` exits 2 and every other
invocation succeeds. -/
def procDownFails : List String → String × String × Int :=
  fun cmd => if cmd = ["wg", "down", "s0"] then ("", "boom", 2) else ("ok", "", 0)

/-- A fake service manager that succeeds exactly on the third candidate. -/
def procThird : List String → String × String × Int :=
  fun cmd =>
    if cmd = ["systemctl", "start", "tor@default"] then ("active", "", 0)
    else ("", "unit not found", 1)

lemma isPrefixOf_singleton (c : Char) (s : List Char) :
    List.isPrefixOf [c] s = true ↔ ∃ t, s = c :: t := by
  cases s with
  | nil => simp [List.isPrefixOf]
  | cons d t =>
    simp only [List.isPrefixOf, Bool.and_eq_true, beq_iff_eq]
    constructor
    · rintro ⟨rfl, -⟩; exact ⟨t, rfl⟩
    · rintro ⟨t', ht⟩; cases ht; exact ⟨rfl, trivial⟩

/-- Claim C3: the reload composite runs `down` first; on a non-zero `down`
exit code it returns the `down` result exactly and never invokes `up`; on a
zero exit code it invokes `up` exactly once and returns its result. -/
theorem reload_server_spec (proc : List String → String × String × Int)
    (binary server : String) :
    ((run proc [binary, "down", server]).returncode ≠ 0 →
      reload_server proc binary server =
        (run proc [binary, "down", server], [[binary, "down", server]])) ∧
    ((run proc [binary, "down", server]).returncode = 0 →
      reload_server proc binary server =
        (run proc [binary, "up", server],
         [[binary, "down", server], [binary, "up", server]])) := by
  constructor <;> intro h <;> simp [reload_server, h]

/-- Witness for C3: with a double that fails `down s0` with exit code 2 and
succeeds elsewhere, reload of `s0` stops after `down` and reload of `s1`
runs `down` then `up`. -/
theorem reload_server_spec_witness :
    reload_server procDownFails "wg" "s0" =
      (run procDownFails ["wg", "down", "s0"], [["wg", "down", "s0"]]) ∧
    reload_server procDownFails "wg" "s1" =
      (run procDownFails ["wg", "up", "s1"],
       [["wg", "down", "s1"], ["wg", "up", "s1"]]) :=
  ⟨(reload_server_spec procDownFails "wg" "s0").1 (by decide),
   (reload_server_spec procDownFails "wg" "s1").2 (by decide)⟩

/-- Claim C7: a non-empty `OPENNET_BIN` override is returned verbatim,
independently of the default-path computation; an absent override yields the
parent-of-parent of the resolved script path joined with `opennet`.  The
function is pure in the environment: no filesystem access occurs. -/
theorem find_binary_spec (env : Option String) (tui : PyPath) :
    (∀ p, env = some p → p ≠ "" →
      find_binary env tui = PyPath.ofString p ∧
      ∀ tui2, find_binary env tui = find_binary env tui2) ∧
    (env = none →
      find_binary env tui =
        PyPath.join (PyPath.parent (PyPath.parent tui)) "opennet") := by
  constructor
  · rintro p rfl hne
    refine ⟨by simp [find_binary, hne], fun tui2 => by simp [find_binary, hne]⟩
  · rintro rfl; rfl

/-- Witness for C7: override `/tmp/x` is returned as-is; with no override the
default below the install location is returned. -/
theorem find_binary_spec_witness :
    find_binary (some "/tmp/x") (PyPath.ofString "/repo/scripts/tui.py") =
      PyPath.ofString "/tmp/x" ∧
    find_binary none (PyPath.ofString "/repo/scripts/tui.py") =
      PyPath.join (PyPath.parent (PyPath.parent
        (PyPath.ofString "/repo/scripts/tui.py"))) "opennet" :=
  ⟨((find_binary_spec (some "/tmp/x") (PyPath.ofString "/repo/scripts/tui.py")).1
      "/tmp/x" rfl (by decide)).1,
   (find_binary_spec none (PyPath.ofString "/repo/scripts/tui.py")).2 rfl⟩

/-- Claim C8: an action outside start/stop/reload/status yields a synthesized
result with empty command text, exit code 1 and a descriptive stderr, and no
process is invoked (the invocation trace is empty). -/
theorem tor_service_unrecognized (proc : List String → String × String × Int)
    (action : String)
    (h : ¬(action = "start" ∨ action = "stop" ∨ action = "reload" ∨
      action = "status")) :
    tor_service proc action =
      (⟨"", "", "Unsupported action " ++ action, 1⟩, []) := by
  simp [tor_service, h]

/-- Witness for C8: the unrecognized action `restart` is rejected without
any invocation. -/
theorem tor_service_unrecognized_witness :
    tor_service procAllFail "restart" =
      (⟨"", "", "Unsupported action restart", 1⟩, []) :=
  tor_service_unrecognized procAllFail "restart" (by decide)

/-- Claim C9: the presenter prints the command line, the stdout block exactly
when stdout is non-empty, the stderr block tagged `[stderr]` exactly when
stderr is non-empty, independently of the exit code, and a trailing blank
line; an all-empty result with exit code 0 prints only the command line and
the blank line. -/
theorem print_result_spec (c so se : String) (k : Int) :
    print_result ⟨c, so, se, k⟩ =
      ["\n$ " ++ c] ++ (if so = "" then [] else [so])
        ++ (if se = "" then [] else ["[stderr] " ++ se]) ++ [""] ∧
    print_result ⟨c, so, se, k⟩ = print_result ⟨c, so, se, 0⟩ ∧
    print_result ⟨c, "", "", 0⟩ = ["\n$ " ++ c, ""] ∧
    (print_result ⟨c, so, se, k⟩).length =
      2 + (if so = "" then 0 else 1) + (if se = "" then 0 else 1) := by
  refine ⟨?_, rfl, rfl, ?_⟩ <;>
    by_cases h1 : so = "" <;> by_cases h2 : se = "" <;>
      simp [print_result, h1, h2]

/-- Claim C10: the yes/no prompt answers affirmatively exactly when the
stripped, lowercased input line starts with `y`; in particular the empty
line is negative. -/
theorem ask_yes_no_spec (s : List Char) :
    (ask_yes_no s = true ↔ ∃ t, pyLower (pyStrip s) = 'y' :: t) ∧
    ask_yes_no [] = false := by
  refine ⟨?_, rfl⟩
  unfold ask_yes_no prompt
  exact isPrefixOf_singleton 'y' (pyLower (pyStrip s))

/-- Witness for C10: `  YES ` is affirmative, `no` is not. -/
theorem ask_yes_no_spec_witness :
    ask_yes_no "  YES ".data = true ∧ ask_yes_no "no".data = false ∧
    ask_yes_no [] = false :=
  ⟨(ask_yes_no_spec "  YES ".data).1.mpr ⟨"es".data, by decide⟩,
   by
    have h := (ask_yes_no_spec "no".data).1
    cases hb : ask_yes_no "no".data
    · rfl
    · rcases h.mp hb with ⟨t, ht⟩
      have h2 : pyLower (pyStrip "no".data) = ['n', 'o'] := by decide
      rw [h2] at ht
      injection ht with h3 h4
      exact absurd h3 (by decide),
   (ask_yes_no_spec []).2⟩

lemma torLoop_trace_le (proc : List String → String × String × Int)
    (action : String) :
    ∀ (names : List String) (last : Option CommandResult),
      (torLoop proc action names last).2.length ≤ names.length := by
  intro names
  induction names with
  | nil => intro last; simp [torLoop]
  | cons n rest ih =>
    intro last
    simp only [torLoop]
    by_cases h : (run proc ["systemctl", action, n]).returncode = 0
    · simp [h]
    · simpa [h] using ih (some (run proc ["systemctl", action, n]))

lemma torLoop_first_success (proc : List String → String × String × Int)
    (action : String) :
    ∀ (names : List String) (last : Option CommandResult) (k : Nat)
      (hk : k < names.length),
      (∀ j (hj : j < k),
        (run proc ["systemctl", action,
          names.get ⟨j, Nat.lt_trans hj hk⟩]).returncode ≠ 0) →
      (run proc ["systemctl", action, names.get ⟨k, hk⟩]).returncode = 0 →
      torLoop proc action names last =
        (run proc ["systemctl", action, names.get ⟨k, hk⟩],
         (names.take (k + 1)).map (fun n => ["systemctl", action, n]))
  | [], _, k, hk, _, _ => absurd hk (by simp)
  | n :: rest, last, 0, hk, _, h0 => by
    simp only [torLoop, List.get]
    simp only [List.get] at h0
    rw [if_pos h0]
    simp
  | n :: rest, last, k + 1, hk, hj, hk0 => by
    have hn : (run proc ["systemctl", action, n]).returncode ≠ 0 :=
      hj 0 (Nat.succ_pos k)
    simp only [torLoop]
    rw [if_neg hn]
    have ih := torLoop_first_success proc action rest
      (some (run proc ["systemctl", action, n])) k
      (Nat.lt_of_succ_lt_succ hk)
      (fun j hjj => hj (j + 1) (Nat.succ_lt_succ hjj))
      hk0
    rw [ih]
    simp

/-- Claim C1: for a recognized action the Service Controller probes the four
candidates in order, returns the first zero-exit result unmodified having
invoked exactly the first k candidates, and never makes more than four
invocations. -/
theorem tor_service_first_success (proc : List String → String × String × Int)
    (action : String)
    (hrec : action = "start" ∨ action = "stop" ∨ action = "reload" ∨
      action = "status") :
    (∀ k (hk : k < serviceNames.length),
      (∀ j (hj : j < k),
        (run proc ["systemctl", action,
          serviceNames.get ⟨j, Nat.lt_trans hj hk⟩]).returncode ≠ 0) →
      (run proc ["systemctl", action, serviceNames.get ⟨k, hk⟩]).returncode = 0 →
      tor_service proc action =
        (run proc ["systemctl", action, serviceNames.get ⟨k, hk⟩],
         (serviceNames.take (k + 1)).map (fun n => ["systemctl", action, n]))) ∧
    (tor_service proc action).2.length ≤ 4 := by
  constructor
  · intro k hk hj hk0
    have e : tor_service proc action = torLoop proc action serviceNames none := by
      simp [tor_service, hrec]
    rw [e]
    exact torLoop_first_success proc action serviceNames none k hk hj hk0
  · by_cases hr : action = "start" ∨ action = "stop" ∨ action = "reload" ∨
      action = "status"
    · have e : tor_service proc action = torLoop proc action serviceNames none := by
        simp [tor_service, hr]
      rw [e]
      exact torLoop_trace_le proc action serviceNames none
    · simp [tor_service, hr]

/-- Witness for C1: a fake service manager succeeding on the third of the
four candidates causes exactly three invocations and the third result is
returned unmodified. -/
theorem tor_service_first_success_witness :
    tor_service procThird "start" =
      (run procThird ["systemctl", "start", "tor@default"],
       [["systemctl", "start", "tor"], ["systemctl", "start", "tor.service"],
        ["systemctl", "start", "tor@default"]]) ∧
    (tor_service procThird "start").2.length = 3 := by
  have h := (tor_service_first_success procThird "start" (Or.inl rfl)).1 2
    (by decide) (by decide) (by decide)
  constructor
  · exact h
  · rw [h]; decide

/-- Claim C2: when every candidate of a recognized action fails, the returned
result is synthesized with empty command text, the last candidate's stdout,
the last candidate's stderr followed by the fixed hint, and the last
candidate's exit code; with an empty candidate list the synthesized exit
code is 1 and the stderr is the bare hint. -/
theorem tor_service_all_fail (proc : List String → String × String × Int)
    (action : String)
    (hrec : action = "start" ∨ action = "stop" ∨ action = "reload" ∨
      action = "status")
    (hfail : ∀ n ∈ serviceNames,
      (run proc ["systemctl", action, n]).returncode ≠ 0) :
    tor_service proc action =
      (⟨"", (run proc ["systemctl", action, "tor@default.service"]).stdout,
        (run proc ["systemctl", action, "tor@default.service"]).stderr ++ torHint,
        (run proc ["systemctl", action, "tor@default.service"]).returncode⟩,
       serviceNames.map (fun n => ["systemctl", action, n])) ∧
    torLoop proc action [] none = (⟨"", "", torHint, 1⟩, []) := by
  have h0 := hfail "tor" (by simp [serviceNames])
  have h1 := hfail "tor.service" (by simp [serviceNames])
  have h2 := hfail "tor@default" (by simp [serviceNames])
  have h3 := hfail "tor@default.service" (by simp [serviceNames])
  constructor
  · have e : tor_service proc action = torLoop proc action serviceNames none := by
      simp [tor_service, hrec]
    rw [e]
    simp only [serviceNames, torLoop]
    rw [if_neg h0, if_neg h1, if_neg h2, if_neg h3]
    simp
  · have he : ("" : String) ++ torHint = torHint := rfl
    simp [torLoop, he]

/-- Witness for C2: with a double failing all candidates for `stop`, the
result carries the last probe's stderr plus the hint and its exit code. -/
theorem tor_service_all_fail_witness :
    tor_service procAllFail "stop" =
      (⟨"", (run procAllFail ["systemctl", "stop", "tor@default.service"]).stdout,
        (run procAllFail ["systemctl", "stop", "tor@default.service"]).stderr
          ++ torHint,
        (run procAllFail ["systemctl", "stop", "tor@default.service"]).returncode⟩,
       serviceNames.map (fun n => ["systemctl", "stop", n])) :=
  (tor_service_all_fail procAllFail "stop" (Or.inr (Or.inl rfl))
    (by decide)).1

/-- Counterexample to C5: when all candidates fail, the Service Controller's
synthesized result carries an empty `command`, while the invocations it made
(here the last one, on `tor@default.service`) have non-empty quoted command
text — so the synthesized result does not reflect any argument vector. -/
theorem tor_service_command_counterexample :
    (tor_service procAllFail "start").1.command = "" ∧
    (tor_service procAllFail "start").2.getLast? =
      some ["systemctl", "start", "tor@default.service"] ∧
    commandText ["systemctl", "start", "tor@default.service"] =
      "systemctl start tor@default.service" := by
  decide

/-- Amended C5: every result built by the Process Runner carries the quoted
argument vector as its command text; a Service Controller result either is a
candidate's runner result unmodified (hence carries that candidate's quoted
argument vector) or is synthesized with empty command text. -/
theorem command_text_amended (proc : List String → String × String × Int)
    (cmd : List String) (action : String) :
    (run proc cmd).command = commandText cmd ∧
    ((tor_service proc action).1.command = "" ∨
      ∃ n ∈ serviceNames,
        (tor_service proc action).1 = run proc ["systemctl", action, n]) := by
  refine ⟨rfl, ?_⟩
  by_cases hrec : action = "start" ∨ action = "stop" ∨ action = "reload" ∨
    action = "status"
  · have main : ∀ (names : List String) (last : Option CommandResult),
        (torLoop proc action names last).1.command = "" ∨
        ∃ n ∈ names,
          (torLoop proc action names last).1 = run proc ["systemctl", action, n] := by
      intro names
      induction names with
      | nil => intro last; left; rfl
      | cons n rest ih =>
        intro last
        simp only [torLoop]
        by_cases h : (run proc ["systemctl", action, n]).returncode = 0
        · right; exact ⟨n, by simp, by rw [if_pos h]⟩
        · rw [if_neg h]
          rcases ih (some (run proc ["systemctl", action, n])) with h1 | ⟨m, hm, he⟩
          · left; exact h1
          · right; exact ⟨m, by simp [hm], he⟩
    have e : tor_service proc action = torLoop proc action serviceNames none := by
      simp [tor_service, hrec]
    rw [e]
    exact main serviceNames none
  · left; simp [tor_service, hrec]

/-- Counterexample to C6: in the Host menu the key `B` is not bound in the
registry, yet it does not produce the invalid-choice self-loop — its
lowercased form matches the reserved back key, so the menu exits to its
parent instead. -/
theorem host_unbound_key_counterexample :
    lookupAction host_actions "B" = none ∧
    host_step "B" = MenuStep.back ∧
    MenuStep.back ≠ MenuStep.invalid := by
  decide

/-- Amended C6: in every menu state, an input whose stripped form is not
bound in the state's registry and whose lowercased form does not match a
bound key (the reserved `b`, or at Root one of `1`, `2`, `q`) produces the
invalid-choice outcome — the loop re-displays the same menu, with no state
change, no exception and no exit. -/
theorem menu_unmatched_invalid (raw : String) :
    (pyLowerStr (pyStripStr raw) ≠ "1" → pyLowerStr (pyStripStr raw) ≠ "2" →
      pyLowerStr (pyStripStr raw) ≠ "q" → root_step raw = MenuStep.invalid) ∧
    (pyLowerStr (pyStripStr raw) ≠ "b" →
      lookupAction host_actions (pyStripStr raw) = none →
      host_step raw = MenuStep.invalid) ∧
    (pyLowerStr (pyStripStr raw) ≠ "b" →
      lookupAction device_actions (pyStripStr raw) = none →
      device_step raw = MenuStep.invalid) ∧
    (pyLowerStr (pyStripStr raw) ≠ "b" →
      lookupAction advanced_actions (pyStripStr raw) = none →
      advanced_step raw = MenuStep.invalid) := by
  refine ⟨fun h1 h2 h3 => ?_, fun hb hl => ?_, fun hb hl => ?_, fun hb hl => ?_⟩
  · simp [root_step, h1, h2, h3]
  · have h5 : pyStripStr raw ≠ "5" := by
      intro he; rw [he] at hl; exact absurd hl (by decide)
    simp [host_step, hb, h5, hl]
  · simp [device_step, hb, hl]
  · simp [advanced_step, hb, hl]

/-- Witness for amended C6: the key `x` is unmatched in all four menus and
yields the invalid-choice outcome in each. -/
theorem menu_unmatched_invalid_witness :
    root_step "x" = MenuStep.invalid ∧ host_step "x" = MenuStep.invalid ∧
    device_step "x" = MenuStep.invalid ∧ advanced_step "x" = MenuStep.invalid :=
  ⟨(menu_unmatched_invalid "x").1 (by decide) (by decide) (by decide),
   (menu_unmatched_invalid "x").2.1 (by decide) (by decide),
   (menu_unmatched_invalid "x").2.2.1 (by decide) (by decide),
   (menu_unmatched_invalid "x").2.2.2 (by decide) (by decide)⟩

lemma safe_char_not_special (c : Char) (h : isSafeChar c = true) :
    shWS c = false ∧ c ≠ '\'' ∧ c ≠ '"' ∧ c ≠ '\\' := by
  refine ⟨?_, ?_, ?_, ?_⟩
  · cases hws : shWS c
    · rfl
    · exfalso
      simp only [shWS, Bool.or_eq_true, decide_eq_true_eq] at hws
      rcases hws with ((h1 | h1) | h1) | h1 <;> subst h1 <;>
        exact absurd h (by decide)
  · intro he; subst he; exact absurd h (by decide)
  · intro he; subst he; exact absurd h (by decide)
  · intro he; subst he; exact absurd h (by decide)

lemma splitAux_word_safe (q : Bool) (acc : List (List Char)) :
    ∀ (s tok rest : List Char), s.all isSafeChar = true →
      splitAux .word q tok acc (s ++ rest) =
        splitAux .word q (s.reverse ++ tok) acc rest := by
  intro s
  induction s with
  | nil => intro tok rest _; simp
  | cons c s' ih =>
    intro tok rest hall
    rw [List.all_cons, Bool.and_eq_true] at hall
    obtain ⟨hc, hs'⟩ := hall
    obtain ⟨hws, hsq, hdq, hbs⟩ := safe_char_not_special c hc
    rw [List.cons_append]
    show splitAux .word q tok acc (c :: (s' ++ rest)) = _
    simp only [splitAux]
    rw [if_neg (by simp [hws]), if_neg hsq, if_neg hdq, if_neg hbs]
    rw [ih (c :: tok) rest hs']
    simp

lemma splitAux_squote_body (acc : List (List Char)) :
    ∀ (s tok rest : List Char) (q : Bool),
      splitAux .squote q tok acc (s.flatMap quoteEscChar ++ ('\'' :: rest)) =
        splitAux .word true (s.reverse ++ tok) acc rest := by
  intro s
  induction s with
  | nil => intro tok rest q; simp [splitAux]
  | cons c s' ih =>
    intro tok rest q
    by_cases hc : c = '\''
    · subst hc
      have e1 : (('\'' :: s').flatMap quoteEscChar) ++ ('\'' :: rest) =
          '\'' :: '"' :: '\'' :: '"' :: '\'' ::
            (s'.flatMap quoteEscChar ++ ('\'' :: rest)) := by
        simp [quoteEscChar]
      rw [e1]
      have e2 : splitAux .squote q tok acc
          ('\'' :: '"' :: '\'' :: '"' :: '\'' ::
            (s'.flatMap quoteEscChar ++ ('\'' :: rest))) =
          splitAux .squote true ('\'' :: tok) acc
            (s'.flatMap quoteEscChar ++ ('\'' :: rest)) := rfl
      rw [e2, ih ('\'' :: tok) rest true]
      simp
    · have e1 : ((c :: s').flatMap quoteEscChar) ++ ('\'' :: rest) =
          c :: (s'.flatMap quoteEscChar ++ ('\'' :: rest)) := by
        simp [quoteEscChar, hc]
      rw [e1]
      show splitAux .squote q tok acc (c :: _) = _
      simp only [splitAux]
      rw [if_neg hc]
      rw [ih (c :: tok) rest true]
      simp

lemma splitAux_consume (a : List Char) (acc : List (List Char)) (tail : List Char) :
    ∃ q, splitAux .ws false [] acc (quoteChars a ++ tail) =
        splitAux .word q a.reverse acc tail ∧ (a ≠ [] ∨ q = true) := by
  by_cases ha : a = []
  · subst ha
    exact ⟨true, rfl, Or.inr rfl⟩
  · by_cases hsafe : a.all isSafeChar
    · refine ⟨false, ?_, Or.inl ha⟩
      have hq : quoteChars a = a := by simp [quoteChars, ha, hsafe]
      rw [hq]
      cases a with
      | nil => exact absurd rfl ha
      | cons c s =>
        rw [List.all_cons, Bool.and_eq_true] at hsafe
        obtain ⟨hc, hs⟩ := hsafe
        obtain ⟨hws, hsq, hdq, hbs⟩ := safe_char_not_special c hc
        rw [List.cons_append]
        show splitAux .ws false [] acc (c :: (s ++ tail)) = _
        simp only [splitAux]
        rw [if_neg (by simp [hws]), if_neg hbs, if_neg hsq, if_neg hdq]
        rw [splitAux_word_safe false acc s [c] tail hs]
        simp
    · refine ⟨true, ?_, Or.inr rfl⟩
      have hq : quoteChars a = '\'' :: (a.flatMap quoteEscChar ++ ['\'']) := by
        simp [quoteChars, ha, hsafe]
      rw [hq, List.cons_append]
      have e : splitAux .ws false [] acc
          ('\'' :: ((a.flatMap quoteEscChar ++ ['\'']) ++ tail)) =
          splitAux .squote false [] acc
            ((a.flatMap quoteEscChar ++ ['\'']) ++ tail) := rfl
      rw [e]
      have e2 : (a.flatMap quoteEscChar ++ ['\'']) ++ tail =
          a.flatMap quoteEscChar ++ ('\'' :: tail) := by simp
      rw [e2, splitAux_squote_body acc a [] tail false]
      simp

lemma splitAux_arg_last (a : List Char) (acc : List (List Char)) :
    splitAux .ws false [] acc (quoteChars a) = some (a :: acc).reverse := by
  obtain ⟨q, he, hcond⟩ := splitAux_consume a acc []
  rw [List.append_nil] at he
  rw [he]
  have hcond' : a.reverse ≠ [] ∨ q = true := by
    rcases hcond with h | h
    · left; simpa using h
    · right; exact h
  simp only [splitAux]
  rw [if_pos hcond']
  simp

lemma splitAux_arg_cons (a : List Char) (acc : List (List Char)) (more : List Char) :
    splitAux .ws false [] acc (quoteChars a ++ (' ' :: more)) =
      splitAux .ws false [] (a :: acc) more := by
  obtain ⟨q, he, hcond⟩ := splitAux_consume a acc (' ' :: more)
  rw [he]
  have hcond' : a.reverse ≠ [] ∨ q = true := by
    rcases hcond with h | h
    · left; simpa using h
    · right; exact h
  have estep : splitAux .word q a.reverse acc (' ' :: more) =
      if a.reverse ≠ [] ∨ q = true then
        splitAux .ws false [] (a.reverse.reverse :: acc) more
      else splitAux .ws false [] acc more := by
    simp only [splitAux]
    rw [if_pos (show shWS ' ' = true from rfl)]
  rw [estep, if_pos hcond']
  simp

lemma splitAux_join : ∀ (args : List (List Char)) (acc : List (List Char)),
    splitAux .ws false [] acc (pyJoin [' '] (args.map quoteChars)) =
      some (acc.reverse ++ args)
  | [], acc => by simp [pyJoin, splitAux]
  | [a], acc => by
    simp only [List.map, pyJoin]
    rw [splitAux_arg_last]
    simp
  | a :: b :: rest, acc => by
    simp only [List.map, pyJoin]
    have e : quoteChars a ++ [' '] ++
        pyJoin [' '] (quoteChars b :: rest.map quoteChars) =
        quoteChars a ++
          (' ' :: pyJoin [' '] (quoteChars b :: List.map quoteChars rest)) := by
      simp
    rw [e, splitAux_arg_cons]
    have ih := splitAux_join (b :: rest) (a :: acc)
    simp only [List.map] at ih
    rw [ih]
    simp

/-- Claim C4: splitting the command text built by the Process Runner with
shell-quoting rules reproduces the original argument vector exactly. -/
theorem run_command_roundtrip (proc : List String → String × String × Int)
    (cmd : List String) :
    shlexSplitStr (run proc cmd).command = some cmd := by
  have h1 : (run proc cmd).command = commandText cmd := rfl
  rw [h1]
  unfold commandText shlexSplitStr shlexSplit
  have h3 : cmd.map (fun s => quoteChars s.data) =
      (cmd.map String.data).map quoteChars := by
    rw [List.map_map]; rfl
  show ((splitAux .ws false [] []
    (pyJoin [' '] (cmd.map fun s => quoteChars s.data))).map
      (fun l => l.map String.mk)) = some cmd
  rw [h3, splitAux_join (cmd.map String.data) []]
  have h4 : ∀ l : List String, (l.map String.data).map String.mk = l := by
    intro l
    induction l with
    | nil => rfl
    | cons x xs ih =>
      simp only [List.map_cons]
      rw [ih]
  simp only [List.reverse_nil, List.nil_append, Option.map_some']
  rw [h4]

end Tui
